import Mathlib

/-!
Shallow embedding of src/fix_statistics.py, a repair tool for exported
statistics rows.  Python floats are modelled as exact rationals: every
comparison in the tool is exact floating equality, which the rational
model mirrors; Python non-negative ints are modelled as Nat.  The mutable
chain of StatisticEntry objects (each holding a reference to its
predecessor) is modelled positionally: the rows live in a list in chain
order, the predecessor of the row at position i + 1 is the row at
position i, and the first row has no predecessor.  Because each pass
walks forward and only ever mutates the row it is visiting, a pass is
modelled as a recursion that threads the already-processed predecessor.
Uncaught Python exceptions (AttributeError when make_backup reads a
missing predecessor, ValueError / IndexError while parsing) are modelled
by Option / explicit error results.
-/

namespace FixStatistics

attribute [local semireducible] Rat.add Rat.sub Rat.mul Rat.inv

/-- The backup copy (StatisticEntry._original) a row acquires on its first
correction: the pre-correction id, state, sum and line number, plus the
backward link that make_backup computes.  prevBackup = some b means the
backup links to the predecessor's own backup object b (immutable once
created); prevBackup = none means it links to the predecessor's live
entry, that is, to the row one position earlier in the chain, whose
fields may still mutate after the snapshot is taken. -/
inductive Backup : Type where
  | mk (id : Nat) (state : ℚ) (sum : ℚ) (line_number : Nat)
      (prevBackup : Option Backup) : Backup

def Backup.id : Backup → Nat
  | .mk i _ _ _ _ => i

def Backup.state : Backup → ℚ
  | .mk _ s _ _ _ => s

def Backup.sum : Backup → ℚ
  | .mk _ _ u _ _ => u

def Backup.line_number : Backup → Nat
  | .mk _ _ _ n _ => n

def Backup.prevBackup : Backup → Option Backup
  | .mk _ _ _ _ p => p

/-- One statistics row (StatisticEntry): id, state, sum, source line
number and the optional backup taken on first correction.  The
predecessor reference is positional (see the module comment). -/
structure Row where
  id : Nat
  state : ℚ
  sum : ℚ
  line_number : Nat
  backup : Option Backup

/-- StatisticEntry.has_backup. -/
def Row.has_backup (r : Row) : Bool := r.backup.isSome

/-- StatisticEntry.make_backup.  The Python body first evaluates
self.prev.backup (an AttributeError, modelled as none, when the row has
no predecessor - the read happens before the has-backup test), then, only
if no backup exists yet, stores a copy of the current fields linked to
the predecessor's backup when there is one and to the live predecessor
otherwise. -/
def make_backup (prev : Option Row) (r : Row) : Option Row :=
  match prev with
  | none => none
  | some p =>
    let original_previous : Option Backup := p.backup
    if r.backup.isSome then some r
    else some { r with
      backup := some (Backup.mk r.id r.state r.sum r.line_number original_previous) }

/-- Total companion of make_backup for a present predecessor. -/
def backupRow (p r : Row) : Row :=
  if r.backup.isSome then r
  else { r with backup := some (Backup.mk r.id r.state r.sum r.line_number p.backup) }

/-- StatisticEntry.fix_state: make_backup, then state := prev.state. -/
def fix_state (prev : Option Row) (r : Row) : Option Row :=
  match prev with
  | none => none
  | some p => (make_backup (some p) r).map fun r1 => { r1 with state := p.state }

/-- StatisticEntry.fix_sum: make_backup, then if the state change against
the predecessor is non-negative, sum := prev.sum + state_change. -/
def fix_sum (prev : Option Row) (r : Row) : Option Row :=
  match prev with
  | none => none
  | some p => (make_backup (some p) r).map fun r1 =>
      let state_change := r1.state - p.state
      if 0 ≤ state_change then { r1 with sum := p.sum + state_change } else r1

/-- Total companion of fix_state for a present predecessor. -/
def fixStateRun (p r : Row) : Row := { backupRow p r with state := p.state }

/-- Total companion of fix_sum for a present predecessor. -/
def fixSumRun (p r : Row) : Row :=
  let r1 := backupRow p r
  if 0 ≤ r1.state - p.state then { r1 with sum := p.sum + (r1.state - p.state) } else r1

/-- The per-row body of the fix_states loop: if state == 0 and the row
has a predecessor whose state is nonzero, fix_state is called.  The
guard mirrors the Python short-circuit order. -/
def stateStepOpt (prev : Option Row) (r : Row) : Option Row :=
  if r.state = 0 then
    match prev with
    | none => some r
    | some p => if p.state ≠ 0 then fix_state (some p) r else some r
  else some r

/-- Total companion of stateStepOpt. -/
def stateStep (prev : Option Row) (r : Row) : Row :=
  if r.state = 0 then
    match prev with
    | none => r
    | some p => if p.state ≠ 0 then fixStateRun p r else r
  else r

/-- The per-row body of the fix_sums loop: rows without a predecessor are
skipped; a negative state change is a meter replacement and is skipped;
otherwise fix_sum is called exactly when sum differs from prev.sum plus
the state change. -/
def sumStepOpt (prev : Option Row) (r : Row) : Option Row :=
  match prev with
  | none => some r
  | some p =>
    let state_change := r.state - p.state
    if state_change < 0 then some r
    else if r.sum ≠ p.sum + state_change then fix_sum (some p) r
    else some r

/-- Total companion of sumStepOpt. -/
def sumStep (prev : Option Row) (r : Row) : Row :=
  match prev with
  | none => r
  | some p =>
    if r.state - p.state < 0 then r
    else if r.sum ≠ p.sum + (r.state - p.state) then fixSumRun p r
    else r

/-- fix_states: a single forward sweep; the first argument is the
already-processed predecessor of the head row (none for the driver). -/
def fix_states (prev : Option Row) : List Row → Option (List Row)
  | [] => some []
  | r :: rest =>
    match stateStepOpt prev r with
    | none => none
    | some r1 =>
      match fix_states (some r1) rest with
      | none => none
      | some rest1 => some (r1 :: rest1)

/-- fix_sums: a single forward sweep run strictly after fix_states. -/
def fix_sums (prev : Option Row) : List Row → Option (List Row)
  | [] => some []
  | r :: rest =>
    match sumStepOpt prev r with
    | none => none
    | some r1 =>
      match fix_sums (some r1) rest with
      | none => none
      | some rest1 => some (r1 :: rest1)

/-- A forward sweep with a total per-row step, threading the processed
predecessor; both passes are proved equal to an instance of this. -/
def runPass (step : Option Row → Row → Row) (prev : Option Row) : List Row → List Row
  | [] => []
  | r :: rest =>
    let r1 := step prev r
    r1 :: runPass step (some r1) rest

/-- fixed_entries: the rows holding a backup. -/
def fixed_entries (l : List Row) : List Row := l.filter Row.has_backup

/-- The filter used by entries_with_fixed_state: has_backup and
backup.state != state (exact equality). -/
def fixedStateFlag (e : Row) : Bool :=
  match e.backup with
  | some b => decide (b.state ≠ e.state)
  | none => false

/-- The filter used by entries_with_fixed_sum: has_backup and
backup.sum != sum (exact equality). -/
def fixedSumFlag (e : Row) : Bool :=
  match e.backup with
  | some b => decide (b.sum ≠ e.sum)
  | none => false

def entries_with_fixed_state (l : List Row) : List Row := l.filter fixedStateFlag

def entries_with_fixed_sum (l : List Row) : List Row := l.filter fixedSumFlag

/-- The content of the SQL text generate_sql emits: the WHEN lines of the
state CASE, the WHEN lines of the sum CASE, and the WHERE id IN list. -/
structure SqlOutput where
  stateWhens : List (Nat × ℚ)
  sumWhens : List (Nat × ℚ)
  ids : List Nat

/-- generate_sql, modelled on its accumulation structure: the first loop
writes one state WHEN line per entry with a fixed state and appends its
id to the ids accumulator; the second loop does the same for entries
with a fixed sum, continuing the same accumulator; the WHERE clause then
lists the accumulated ids. -/
def generate_sql (statistics : List Row) : SqlOutput :=
  let first := (entries_with_fixed_state statistics).foldl
    (fun (acc : List (Nat × ℚ) × List Nat) e =>
      (acc.1 ++ [(e.id, e.state)], acc.2 ++ [e.id])) ([], [])
  let second := (entries_with_fixed_sum statistics).foldl
    (fun (acc : List (Nat × ℚ) × List Nat) e =>
      (acc.1 ++ [(e.id, e.sum)], acc.2 ++ [e.id])) ([], first.2)
  { stateWhens := first.1, sumWhens := second.1, ids := second.2 }

/-- Python list indexing: a non-negative index reads from the front, a
negative index wraps once from the back, anything else is an IndexError
(modelled as none). -/
def pyGet {α : Type} (xs : List α) (i : Int) : Option α :=
  if 0 ≤ i then xs.get? i.toNat
  else if 0 ≤ i + xs.length then xs.get? (i + xs.length).toNat
  else none

/-- str.split for a one-character separator (the CLI takes a single
separator character, default comma): splitting the empty text gives one
empty field, and every separator occurrence opens a new field. -/
def pySplit (sep : Char) : List Char → List (List Char)
  | [] => [[]]
  | c :: rest =>
    if c = sep then [] :: pySplit sep rest
    else
      match pySplit sep rest with
      | [] => [[c]]
      | f :: fs => (c :: f) :: fs

/-- str.isnumeric restricted to ASCII: nonempty and all decimal digits. -/
def pyIsNumeric (s : List Char) : Bool :=
  !s.isEmpty && s.all Char.isDigit

/-- Decimal digit run to Nat. -/
def digitsToNat (cs : List Char) : Nat :=
  cs.foldl (fun a c => 10 * a + (c.toNat - 48)) 0

/-- int(...) as used after the isnumeric guard: a digit string parses to
its value, anything else is a ValueError (none). -/
def pyInt (s : List Char) : Option Nat :=
  if pyIsNumeric s then some (digitsToNat s) else none

/-- Surrounding-whitespace stripping, as float(...) performs. -/
def trimChars (cs : List Char) : List Char :=
  ((cs.dropWhile Char.isWhitespace).reverse.dropWhile Char.isWhitespace).reverse

/-- float(...) on the decimal forms the tool meets: surrounding
whitespace stripped, optional sign, digits with an optional fractional
part.  Exponent, infinity and nan spellings are not needed here. -/
def parseFloatCore (cs : List Char) : Option ℚ :=
  let signed : ℚ × List Char :=
    match cs with
    | '-' :: t => (-1, t)
    | '+' :: t => (1, t)
    | _ => (1, cs)
  let intPart := signed.2.takeWhile Char.isDigit
  let tail := signed.2.dropWhile Char.isDigit
  match tail with
  | [] => if intPart.isEmpty then none else some (signed.1 * digitsToNat intPart)
  | '.' :: frac =>
    if frac.all Char.isDigit && !(intPart.isEmpty && frac.isEmpty) then
      some (signed.1 * ((digitsToNat intPart : ℚ) + (digitsToNat frac : ℚ) / (10 : ℚ) ^ frac.length))
    else none
  | _ => none

def parseFloat (s : List Char) : Option ℚ := parseFloatCore (trimChars s)

/-- Result of handling one input line in read_statistics. -/
inductive LineResult where
  | row (id : Nat) (state : ℚ) (sum : ℚ)
  | skip
  | errIndex
  | errValue
deriving DecidableEq

/-- The per-line body of read_statistics, after splitting on the
separator: sum is the last field, state the second-to-last, the first
field is the candidate id; a non-numeric first field skips the line,
and the numeric conversions can raise (errValue).  Index errors from the
field reads are errIndex. -/
def parse_fields (values : List (List Char)) : LineResult :=
  let sum_idx : Int := (values.length : Int) - 1
  let state_idx : Int := sum_idx - 1
  match pyGet values 0 with
  | none => .errIndex
  | some first_value =>
    if !pyIsNumeric first_value then .skip
    else
      match pyInt first_value with
      | none => .errValue
      | some id =>
        match pyGet values state_idx with
        | none => .errIndex
        | some state_field =>
          match parseFloat state_field with
          | none => .errValue
          | some state =>
            match pyGet values sum_idx with
            | none => .errIndex
            | some sum_field =>
              match parseFloat sum_field with
              | none => .errValue
              | some sum => .row id state sum

/-- One line of read_statistics: split on the separator, then parse. -/
def read_line (sep : Char) (line : String) : LineResult :=
  parse_fields (pySplit sep line.toList)

/-- read_statistics over the file's lines, numbering from k; a parse
error aborts the whole run (none), a skip yields no row and leaves the
predecessor chain untouched, a parsed line yields a fresh row with no
backup.  The chain is positional in the returned list. -/
def readGo (sep : Char) : Nat → List String → Option (List Row)
  | _, [] => some []
  | k, line :: rest =>
    match read_line sep line with
    | .errIndex => none
    | .errValue => none
    | .skip => readGo sep (k + 1) rest
    | .row id state sum =>
      match readGo sep (k + 1) rest with
      | none => none
      | some rows => some (⟨id, state, sum, k, none⟩ :: rows)

def read_statistics (sep : Char) (ls : List String) : Option (List Row) :=
  readGo sep 1 ls

/-- The values seen one step back when following the snapshot link of the
row at position i: its backup's prevBackup when the link is to a backup
object, and the live row one position earlier when the link is to the
still-mutable predecessor. -/
def snapshotPrevValues (arena : List Row) (i : Nat) : Option (ℚ × ℚ) :=
  (arena.get? i).bind fun r =>
    r.backup.bind fun b =>
      match b.prevBackup with
      | some pb => some (pb.state, pb.sum)
      | none => (arena.get? (i - 1)).map fun p => (p.state, p.sum)

/-! Bridging lemmas: with a present predecessor every correction
operation succeeds and equals its total companion. -/

theorem make_backup_some (p r : Row) : make_backup (some p) r = some (backupRow p r) := by
  simp only [make_backup, backupRow]
  split <;> rfl

theorem fix_state_some (p r : Row) : fix_state (some p) r = some (fixStateRun p r) := by
  simp only [fix_state, make_backup_some, Option.map_some']
  rfl

theorem fix_sum_some (p r : Row) : fix_sum (some p) r = some (fixSumRun p r) := by
  simp only [fix_sum, make_backup_some, Option.map_some']
  rfl

theorem stateStepOpt_eq (prev : Option Row) (r : Row) :
    stateStepOpt prev r = some (stateStep prev r) := by
  cases prev with
  | none => simp [stateStepOpt, stateStep]
  | some p =>
    by_cases h0 : r.state = 0
    · by_cases hp : p.state ≠ 0
      · simp [stateStepOpt, stateStep, h0, hp, fix_state_some]
      · simp [stateStepOpt, stateStep, h0, hp]
    · simp [stateStepOpt, stateStep, h0]

theorem sumStepOpt_eq (prev : Option Row) (r : Row) :
    sumStepOpt prev r = some (sumStep prev r) := by
  cases prev with
  | none => simp [sumStepOpt, sumStep]
  | some p =>
    by_cases hneg : r.state - p.state < 0
    · simp [sumStepOpt, sumStep, hneg]
    · by_cases hdiff : r.sum ≠ p.sum + (r.state - p.state)
      · simp [sumStepOpt, sumStep, hneg, hdiff, fix_sum_some]
      · simp [sumStepOpt, sumStep, hneg, hdiff]

theorem fix_states_run (prev : Option Row) (l : List Row) :
    fix_states prev l = some (runPass stateStep prev l) := by
  induction l generalizing prev with
  | nil => rfl
  | cons r rest ih => simp [fix_states, runPass, stateStepOpt_eq, ih]

theorem fix_sums_run (prev : Option Row) (l : List Row) :
    fix_sums prev l = some (runPass sumStep prev l) := by
  induction l generalizing prev with
  | nil => rfl
  | cons r rest ih => simp [fix_sums, runPass, sumStepOpt_eq, ih]

/-! Pointwise description of a pass: the row at position i + 1 is the
step applied to the input row with the already-processed row at
position i as predecessor. -/

theorem runPass_length (f : Option Row → Row → Row) (prev : Option Row) (l : List Row) :
    (runPass f prev l).length = l.length := by
  induction l generalizing prev with
  | nil => rfl
  | cons r rest ih => simp [runPass, ih]

theorem runPass_get_zero (f : Option Row → Row → Row) (prev : Option Row)
    (l : List Row) (r : Row) (h : l.get? 0 = some r) :
    (runPass f prev l).get? 0 = some (f prev r) := by
  cases l with
  | nil => simp at h
  | cons a t =>
    simp only [List.get?_cons_zero, Option.some.injEq] at h
    subst h
    simp [runPass]

theorem runPass_get_succ (f : Option Row → Row → Row) (l : List Row) :
    ∀ (prev : Option Row) (i : Nat) (r : Row), l.get? (i + 1) = some r →
      ∃ p1, (runPass f prev l).get? i = some p1 ∧
        (runPass f prev l).get? (i + 1) = some (f (some p1) r) := by
  induction l with
  | nil => intro prev i r h; simp at h
  | cons a t ih =>
    intro prev i r h
    cases i with
    | zero =>
      refine ⟨f prev a, by simp [runPass], ?_⟩
      simpa [runPass] using runPass_get_zero f (some (f prev a)) t r h
    | succ j =>
      obtain ⟨p1, h1, h2⟩ := ih (some (f prev a)) j r h
      exact ⟨p1, by simpa [runPass] using h1, by simpa [runPass] using h2⟩

theorem runPass_forall {Pin Pout : Row → Prop} (f : Option Row → Row → Row)
    (hstep : ∀ prev r, Pin r → Pout (f prev r)) :
    ∀ (prev : Option Row) (l : List Row), (∀ r ∈ l, Pin r) →
      ∀ r1 ∈ runPass f prev l, Pout r1 := by
  intro prev l
  induction l generalizing prev with
  | nil => intro _ r1 h1; simp [runPass] at h1
  | cons a t ih =>
    intro hin r1 h1
    simp only [runPass, List.mem_cons] at h1
    rcases h1 with h1 | h1
    · subst h1; exact hstep prev a (hin a (by simp))
    · exact ih (some (f prev a)) (fun r hr => hin r (by simp [hr])) r1 h1

/-! Projections of the per-row steps. -/

theorem backupRow_state (p r : Row) : (backupRow p r).state = r.state := by
  simp only [backupRow]; split <;> rfl

theorem backupRow_sum (p r : Row) : (backupRow p r).sum = r.sum := by
  simp only [backupRow]; split <;> rfl

theorem backupRow_backup_none (p r : Row) (h : r.backup = none) :
    (backupRow p r).backup = some (Backup.mk r.id r.state r.sum r.line_number p.backup) := by
  simp [backupRow, h]

theorem backupRow_of_some (p r : Row) (h : r.backup.isSome) : backupRow p r = r := by
  simp [backupRow, h]

theorem stateStep_none (r : Row) : stateStep none r = r := by
  by_cases h : r.state = 0 <;> simp [stateStep, h]

theorem sumStep_none (r : Row) : sumStep none r = r := rfl

theorem stateStep_state (p r : Row) :
    (stateStep (some p) r).state = if r.state = 0 ∧ p.state ≠ 0 then p.state else r.state := by
  by_cases h0 : r.state = 0
  · by_cases hp : p.state ≠ 0
    · simp [stateStep, h0, hp, fixStateRun]
    · simp [stateStep, h0, hp]
  · simp [stateStep, h0]

theorem sumStep_sum (p r : Row) :
    (sumStep (some p) r).sum =
      if r.state - p.state < 0 then r.sum
      else if r.sum ≠ p.sum + (r.state - p.state) then p.sum + (r.state - p.state)
      else r.sum := by
  by_cases hneg : r.state - p.state < 0
  · simp [sumStep, hneg]
  · by_cases hdiff : r.sum ≠ p.sum + (r.state - p.state)
    · have h0 : 0 ≤ r.state - p.state := not_lt.mp hneg
      rw [if_neg hneg, if_pos hdiff]
      simp only [sumStep, fixSumRun, backupRow_state]
      rw [if_neg hneg, if_pos hdiff, if_pos h0]
    · simp [sumStep, hneg, hdiff]

/-- C3: a row whose state is 0 when the state-fix pass visits it and
whose predecessor state is nonzero at that time receives the
predecessor's as-of-visit (possibly already corrected) state; every
other row keeps its state, and the first row is untouched. -/
theorem fix_states_rowwise (l l1 : List Row) (h : fix_states none l = some l1) :
    l1.length = l.length ∧
    l1.get? 0 = l.get? 0 ∧
    ∀ i r p1, l.get? (i + 1) = some r → l1.get? i = some p1 →
      (l1.get? (i + 1)).map Row.state =
        some (if r.state = 0 ∧ p1.state ≠ 0 then p1.state else r.state) := by
  have hrun := fix_states_run none l
  rw [h] at hrun
  obtain rfl : l1 = runPass stateStep none l := Option.some.inj hrun
  refine ⟨runPass_length _ _ _, ?_, ?_⟩
  · cases hz : l.get? 0 with
    | none =>
      cases l with
      | nil => rfl
      | cons a t => simp at hz
    | some r =>
      rw [runPass_get_zero stateStep none l r hz, stateStep_none]
  · intro i r p1 hr hp1
    obtain ⟨p2, hp2, hstep⟩ := runPass_get_succ stateStep l none i r hr
    rw [hp1] at hp2
    obtain rfl : p1 = p2 := Option.some.inj hp2
    rw [hstep, Option.map_some', stateStep_state]

/-- Witness for C3: on rows (1, 10, 100), (2, 0, 105) the second row's
state is corrected to the first row's state 10. -/
theorem fix_states_rowwise_witness :
    ((runPass stateStep none
        [⟨1, 10, 100, 1, none⟩, ⟨2, 0, 105, 2, none⟩]).get? (0 + 1)).map Row.state =
      some (if (0 : ℚ) = 0 ∧ (10 : ℚ) ≠ 0 then (10 : ℚ) else (0 : ℚ)) := by
  have h := fix_states_rowwise
    [⟨1, 10, 100, 1, none⟩, ⟨2, 0, 105, 2, none⟩]
    (runPass stateStep none [⟨1, 10, 100, 1, none⟩, ⟨2, 0, 105, 2, none⟩])
    (fix_states_run none _)
  exact h.2.2 0 ⟨2, 0, 105, 2, none⟩ ⟨1, 10, 100, 1, none⟩ rfl rfl

/-- C2: in the sum-fix pass, a row with a predecessor is left with its
sum unchanged when the state delta against the as-of-visit predecessor
is negative, and has its sum set to predecessor.sum + delta when the
delta is non-negative and the sum differs (exactly) from that expected
value; the first row, having no predecessor, is untouched. -/
theorem fix_sums_rowwise (l l1 : List Row) (h : fix_sums none l = some l1) :
    l1.length = l.length ∧
    l1.get? 0 = l.get? 0 ∧
    ∀ i r p1, l.get? (i + 1) = some r → l1.get? i = some p1 →
      (r.state - p1.state < 0 → (l1.get? (i + 1)).map Row.sum = some r.sum) ∧
      (0 ≤ r.state - p1.state → r.sum ≠ p1.sum + (r.state - p1.state) →
        (l1.get? (i + 1)).map Row.sum = some (p1.sum + (r.state - p1.state))) := by
  have hrun := fix_sums_run none l
  rw [h] at hrun
  obtain rfl : l1 = runPass sumStep none l := Option.some.inj hrun
  refine ⟨runPass_length _ _ _, ?_, ?_⟩
  · cases hz : l.get? 0 with
    | none =>
      cases l with
      | nil => rfl
      | cons a t => simp at hz
    | some r =>
      rw [runPass_get_zero sumStep none l r hz, sumStep_none]
  · intro i r p1 hr hp1
    obtain ⟨p2, hp2, hstep⟩ := runPass_get_succ sumStep l none i r hr
    rw [hp1] at hp2
    obtain rfl : p1 = p2 := Option.some.inj hp2
    rw [hstep, Option.map_some', sumStep_sum]
    constructor
    · intro hneg; rw [if_pos hneg]
    · intro hge hdiff
      rw [if_neg (not_lt.mpr hge), if_pos hdiff]

/-- Witness for C2: on rows (1, 10, 100), (2, 10, 105) the second row's
sum is corrected to 100 + (10 - 10). -/
theorem fix_sums_rowwise_witness :
    ((runPass sumStep none
        [⟨1, 10, 100, 1, none⟩, ⟨2, 10, 105, 2, none⟩]).get? (0 + 1)).map Row.sum =
      some ((100 : ℚ) + ((10 : ℚ) - (10 : ℚ))) := by
  have h := fix_sums_rowwise
    [⟨1, 10, 100, 1, none⟩, ⟨2, 10, 105, 2, none⟩]
    (runPass sumStep none [⟨1, 10, 100, 1, none⟩, ⟨2, 10, 105, 2, none⟩])
    (fix_sums_run none _)
  exact (h.2.2 0 ⟨2, 10, 105, 2, none⟩ ⟨1, 10, 100, 1, none⟩ rfl rfl).2
    (by decide) (by decide)

/-- C1: on input rows (1, 10, 100), (2, 0, 105), (3, 15, 120), the
state-fix pass followed by the sum-fix pass corrects row 2's state to 10
and its sum to 100 (delta 0 against row 1's sum 100), corrects row 3's
sum to 105 (delta 5 against row 2's corrected sum 100), and leaves
row 1 unchanged. -/
theorem scenario_a_two_pass :
    ((fix_states none
        [⟨1, 10, 100, 1, none⟩, ⟨2, 0, 105, 2, none⟩, ⟨3, 15, 120, 3, none⟩]).bind
      (fix_sums none)).map (List.map fun r => (r.id, r.state, r.sum))
      = some [(1, 10, 100), (2, 10, 100), (3, 15, 105)] := by
  decide

/-- C6: a row that already holds a snapshot is left exactly as it is by
any further make_backup call, whatever the predecessor then looks like;
consequently after fix_state and then fix_sum on an initially
backup-free row, the snapshot is still the one the first correction
created, recording the row's original values. -/
theorem make_backup_idempotent :
    (∀ (p r : Row), r.backup.isSome → make_backup (some p) r = some r) ∧
    (∀ (p q r r1 r2 : Row), r.backup = none →
      fix_state (some p) r = some r1 → fix_sum (some q) r1 = some r2 →
      r2.backup = r1.backup ∧
      r1.backup = some (Backup.mk r.id r.state r.sum r.line_number p.backup)) := by
  constructor
  · intro p r h
    simp [make_backup, h]
  · intro p q r r1 r2 h hfs hfsum
    rw [fix_state_some] at hfs
    obtain rfl : r1 = fixStateRun p r := (Option.some.inj hfs).symm
    rw [fix_sum_some] at hfsum
    obtain rfl : r2 = fixSumRun q (fixStateRun p r) := (Option.some.inj hfsum).symm
    have hb1 : (fixStateRun p r).backup
        = some (Backup.mk r.id r.state r.sum r.line_number p.backup) := by
      simpa [fixStateRun] using backupRow_backup_none p r h
    have hsome : (fixStateRun p r).backup.isSome := by rw [hb1]; rfl
    have hr1 : backupRow q (fixStateRun p r) = fixStateRun p r :=
      backupRow_of_some q _ hsome
    refine ⟨?_, hb1⟩
    simp only [fixSumRun, hr1]
    split <;> rfl

/-- Witness for C6 at concrete rows: the backup survives fix_sum after
fix_state, a second make_backup is the identity, and the snapshot holds
the original values (2, 0, 105). -/
theorem make_backup_idempotent_witness :
    (fixSumRun ⟨5, 7, 50, 9, none⟩
        (fixStateRun ⟨1, 10, 100, 1, none⟩ ⟨2, 0, 105, 2, none⟩)).backup
      = (fixStateRun ⟨1, 10, 100, 1, none⟩ ⟨2, 0, 105, 2, none⟩).backup ∧
    (fixStateRun ⟨1, 10, 100, 1, none⟩ ⟨2, 0, 105, 2, none⟩).backup
      = some (Backup.mk 2 0 105 2 none) ∧
    make_backup (some ⟨5, 7, 50, 9, none⟩)
        ⟨2, 10, 105, 2, some (Backup.mk 2 0 105 2 none)⟩
      = some ⟨2, 10, 105, 2, some (Backup.mk 2 0 105 2 none)⟩ := by
  have h2 := make_backup_idempotent.2 ⟨1, 10, 100, 1, none⟩ ⟨5, 7, 50, 9, none⟩
    ⟨2, 0, 105, 2, none⟩ _ _ rfl (fix_state_some _ _) (fix_sum_some _ _)
  have h1 := make_backup_idempotent.1 ⟨5, 7, 50, 9, none⟩
    ⟨2, 10, 105, 2, some (Backup.mk 2 0 105 2 none)⟩ rfl
  exact ⟨h2.1, h2.2, h1⟩

/-- C7 counterexample: on input rows (1, 10, 100), (2, 10, 999),
(3, 0, 777), row 3 is state-fixed while row 2 still has no backup, so
row 3's snapshot links to the live row 2, which the sum-fix pass then
corrects from sum 999 to sum 100; following row 3's snapshot link
afterwards yields (state, sum) = (10, 100), not the original
pre-correction values (10, 999) of row 2 - the claimed traversal of the
fully original chain values fails. -/
theorem snapshot_chain_counterexample :
    (((fix_states none
        [⟨1, 10, 100, 1, none⟩, ⟨2, 10, 999, 2, none⟩, ⟨3, 0, 777, 3, none⟩]).bind
      (fix_sums none)).bind fun out => snapshotPrevValues out 2) = some (10, 100) ∧
    ¬ ((((fix_states none
        [⟨1, 10, 100, 1, none⟩, ⟨2, 10, 999, 2, none⟩, ⟨3, 0, 777, 3, none⟩]).bind
      (fix_sums none)).bind fun out => snapshotPrevValues out 2) = some (10, 999)) := by
  constructor <;> decide

/-- C7 amended: when a row's snapshot is first taken, the snapshot's
predecessor link is the predecessor's snapshot when one exists and a
reference to the predecessor's live object otherwise; the traversal of
snapshot links therefore shows original values only as long as a
live-linked predecessor is not corrected after the snapshot is taken. -/
theorem snapshot_link_amended (p r : Row) (h : r.backup = none) :
    make_backup (some p) r =
      some { r with backup := some (Backup.mk r.id r.state r.sum r.line_number p.backup) } := by
  simp [make_backup, h]

/-- Witness for C7's amended statement at concrete rows. -/
theorem snapshot_link_amended_witness :
    make_backup (some ⟨1, 10, 100, 1, none⟩) ⟨2, 0, 105, 2, none⟩ =
      some ⟨2, 0, 105, 2, some (Backup.mk 2 0 105 2 none)⟩ :=
  snapshot_link_amended ⟨1, 10, 100, 1, none⟩ ⟨2, 0, 105, 2, none⟩ rfl

/-- C10: make_backup reads the predecessor before the has-backup test,
so take_snapshot, fix_state and fix_sum all fail on a row without a
predecessor (whether or not it already has a snapshot); the two pass
drivers never reach that failure: both passes always succeed, returning
exactly their total sweeps. -/
theorem missing_predecessor :
    (∀ r : Row, make_backup none r = none) ∧
    (∀ r : Row, fix_state none r = none) ∧
    (∀ r : Row, fix_sum none r = none) ∧
    (∀ (prev : Option Row) (l : List Row),
      fix_states prev l = some (runPass stateStep prev l)) ∧
    (∀ (prev : Option Row) (l : List Row),
      fix_sums prev l = some (runPass sumStep prev l)) :=
  ⟨fun _ => rfl, fun _ => rfl, fun _ => rfl, fix_states_run, fix_sums_run⟩

/-! Per-row invariants feeding the patch-set claim: after the state
pass a backed-up row differs from its snapshot in state and agrees in
sum; the sum pass turns that into a difference in state or in sum. -/

theorem fixSumRun_eq (p r : Row) (h0 : 0 ≤ r.state - p.state) :
    fixSumRun p r = { backupRow p r with sum := p.sum + (r.state - p.state) } := by
  simp only [fixSumRun, backupRow_state]
  rw [if_pos h0]

theorem stateStep_backup_prop (prev : Option Row) (r : Row) (h : r.backup = none) :
    ∀ b, (stateStep prev r).backup = some b →
      b.state ≠ (stateStep prev r).state ∧ b.sum = (stateStep prev r).sum := by
  cases prev with
  | none =>
    rw [stateStep_none]
    intro b hb; rw [h] at hb; cases hb
  | some p =>
    by_cases h0 : r.state = 0
    · by_cases hp : p.state ≠ 0
      · have hstep : stateStep (some p) r = fixStateRun p r := by
          simp [stateStep, h0, hp]
        rw [hstep]
        have hbk : (fixStateRun p r).backup
            = some (Backup.mk r.id r.state r.sum r.line_number p.backup) := by
          simpa [fixStateRun] using backupRow_backup_none p r h
        intro b hb
        rw [hbk] at hb
        obtain rfl : b = Backup.mk r.id r.state r.sum r.line_number p.backup :=
          (Option.some.inj hb).symm
        constructor
        · show r.state ≠ (fixStateRun p r).state
          have hst : (fixStateRun p r).state = p.state := rfl
          rw [hst, h0]
          exact fun hcontra => hp hcontra.symm
        · show r.sum = (fixStateRun p r).sum
          have hsu : (fixStateRun p r).sum = (backupRow p r).sum := rfl
          rw [hsu, backupRow_sum]
      · have hstep : stateStep (some p) r = r := by simp [stateStep, h0, hp]
        rw [hstep]; intro b hb; rw [h] at hb; cases hb
    · have hstep : stateStep (some p) r = r := by simp [stateStep, h0]
      rw [hstep]; intro b hb; rw [h] at hb; cases hb

theorem sumStep_backup_prop (prev : Option Row) (r : Row)
    (h : ∀ b, r.backup = some b → b.state ≠ r.state ∧ b.sum = r.sum) :
    ∀ b, (sumStep prev r).backup = some b →
      b.state ≠ (sumStep prev r).state ∨ b.sum ≠ (sumStep prev r).sum := by
  cases prev with
  | none =>
    rw [sumStep_none]
    intro b hb; exact Or.inl (h b hb).1
  | some p =>
    by_cases hneg : r.state - p.state < 0
    · have hstep : sumStep (some p) r = r := by simp [sumStep, hneg]
      rw [hstep]; intro b hb; exact Or.inl (h b hb).1
    · by_cases hdiff : r.sum ≠ p.sum + (r.state - p.state)
      · have h0 : 0 ≤ r.state - p.state := not_lt.mp hneg
        have hstep : sumStep (some p) r = fixSumRun p r := by
          simp [sumStep, hneg, hdiff]
        rw [hstep, fixSumRun_eq p r h0]
        intro b hb
        cases hbk : r.backup with
        | none =>
          have hbb : (backupRow p r).backup
              = some (Backup.mk r.id r.state r.sum r.line_number p.backup) :=
            backupRow_backup_none p r hbk
          have hb2 : some (Backup.mk r.id r.state r.sum r.line_number p.backup) = some b := by
            rw [← hbb]; exact hb
          obtain rfl : b = Backup.mk r.id r.state r.sum r.line_number p.backup :=
            (Option.some.inj hb2).symm
          refine Or.inr ?_
          show r.sum ≠ p.sum + (r.state - p.state)
          exact hdiff
        | some b0 =>
          have hs : r.backup.isSome := by rw [hbk]; rfl
          have hbr : backupRow p r = r := backupRow_of_some p r hs
          rw [hbr] at hb
          have hb3 : r.backup = some b := hb
          refine Or.inl ?_
          rw [hbr]
          show b.state ≠ r.state
          exact (h b hb3).1
      · have hstep : sumStep (some p) r = r := by simp [sumStep, hneg, hdiff]
        rw [hstep]; intro b hb; exact Or.inl (h b hb).1

/-- C9: after the two passes on initially backup-free rows, every row
holding a snapshot differs from it in state or in sum, so the set of
fixed entries is exactly the union of the two patch sets. -/
theorem fixed_entries_union (l l1 l2 : List Row)
    (h0 : ∀ r ∈ l, r.backup = none)
    (h1 : fix_states none l = some l1)
    (h2 : fix_sums none l1 = some l2) :
    ∀ r ∈ fixed_entries l2,
      r ∈ entries_with_fixed_state l2 ∨ r ∈ entries_with_fixed_sum l2 := by
  obtain rfl : l1 = runPass stateStep none l := by
    have hh := fix_states_run none l; rw [h1] at hh; exact Option.some.inj hh
  obtain rfl : l2 = runPass sumStep none (runPass stateStep none l) := by
    have hh := fix_sums_run none (runPass stateStep none l)
    rw [h2] at hh; exact Option.some.inj hh
  have hP1 : ∀ r ∈ runPass stateStep none l,
      ∀ b, r.backup = some b → b.state ≠ r.state ∧ b.sum = r.sum :=
    runPass_forall stateStep (fun prev r hr => stateStep_backup_prop prev r hr) none l h0
  have hP2 : ∀ r ∈ runPass sumStep none (runPass stateStep none l),
      ∀ b, r.backup = some b → b.state ≠ r.state ∨ b.sum ≠ r.sum :=
    runPass_forall sumStep (fun prev r hr => sumStep_backup_prop prev r hr) none _ hP1
  intro r hr
  have hmem := List.mem_filter.mp hr
  obtain ⟨b, hb⟩ := Option.isSome_iff_exists.mp hmem.2
  rcases hP2 r hmem.1 b hb with hs | hu
  · refine Or.inl (List.mem_filter.mpr ⟨hmem.1, ?_⟩)
    simp [fixedStateFlag, hb, hs]
  · refine Or.inr (List.mem_filter.mpr ⟨hmem.1, ?_⟩)
    simp [fixedSumFlag, hb, hu]

/-- Witness for C9: on rows (1, 10, 100), (2, 0, 105) the second row
ends as (2, 10, 100) with a snapshot, and lies in the state patch set or
the sum patch set. -/
theorem fixed_entries_union_witness :
    (⟨2, 10, 100, 2, some (Backup.mk 2 0 105 2 none)⟩ : Row) ∈
      entries_with_fixed_state (runPass sumStep none
        (runPass stateStep none [⟨1, 10, 100, 1, none⟩, ⟨2, 0, 105, 2, none⟩])) ∨
    (⟨2, 10, 100, 2, some (Backup.mk 2 0 105 2 none)⟩ : Row) ∈
      entries_with_fixed_sum (runPass sumStep none
        (runPass stateStep none [⟨1, 10, 100, 1, none⟩, ⟨2, 0, 105, 2, none⟩])) := by
  have h := fixed_entries_union [⟨1, 10, 100, 1, none⟩, ⟨2, 0, 105, 2, none⟩]
    (runPass stateStep none [⟨1, 10, 100, 1, none⟩, ⟨2, 0, 105, 2, none⟩])
    (runPass sumStep none (runPass stateStep none [⟨1, 10, 100, 1, none⟩, ⟨2, 0, 105, 2, none⟩]))
    (by intro r hr
        simp only [List.mem_cons, List.not_mem_nil, or_false] at hr
        rcases hr with rfl | rfl <;> rfl)
    (fix_states_run none _) (fix_sums_run none _)
  refine h _ ?_
  have hfe : fixed_entries (runPass sumStep none
      (runPass stateStep none [⟨1, 10, 100, 1, none⟩, ⟨2, 0, 105, 2, none⟩]))
      = [⟨2, 10, 100, 2, some (Backup.mk 2 0 105 2 none)⟩] := rfl
  rw [hfe]
  exact List.mem_singleton.mpr rfl

/-! The SQL emitter's accumulation. -/

theorem sql_foldl (g : Row → ℚ) (l : List Row) :
    ∀ (w : List (Nat × ℚ)) (ids : List Nat),
      l.foldl (fun (acc : List (Nat × ℚ) × List Nat) e =>
          (acc.1 ++ [(e.id, g e)], acc.2 ++ [e.id])) (w, ids)
        = (w ++ l.map (fun e => (e.id, g e)), ids ++ l.map Row.id) := by
  induction l with
  | nil => intro w ids; simp
  | cons a t ih =>
    intro w ids
    simp only [List.foldl_cons, List.map_cons]
    rw [ih]
    simp

theorem generate_sql_fields (statistics : List Row) :
    (generate_sql statistics).stateWhens
      = (entries_with_fixed_state statistics).map (fun e => (e.id, e.state)) ∧
    (generate_sql statistics).sumWhens
      = (entries_with_fixed_sum statistics).map (fun e => (e.id, e.sum)) ∧
    (generate_sql statistics).ids
      = (entries_with_fixed_state statistics).map Row.id
        ++ (entries_with_fixed_sum statistics).map Row.id := by
  simp [generate_sql, sql_foldl]

theorem fixedStateFlag_false_of_no_backup (a : Row) (h : a.has_backup = false) :
    fixedStateFlag a = false := by
  unfold Row.has_backup at h
  unfold fixedStateFlag
  cases hab : a.backup with
  | none => rfl
  | some b => rw [hab] at h; simp at h

theorem fixedSumFlag_false_of_no_backup (a : Row) (h : a.has_backup = false) :
    fixedSumFlag a = false := by
  unfold Row.has_backup at h
  unfold fixedSumFlag
  cases hab : a.backup with
  | none => rfl
  | some b => rw [hab] at h; simp at h

theorem entries_state_of_fixed (l : List Row) :
    entries_with_fixed_state (fixed_entries l) = entries_with_fixed_state l := by
  induction l with
  | nil => rfl
  | cons a t ih =>
    simp only [fixed_entries, entries_with_fixed_state, List.filter_cons] at ih ⊢
    by_cases hb : a.has_backup
    · simp only [hb, if_true, List.filter_cons]
      by_cases hf : fixedStateFlag a
      · simp only [hf, if_true]
        rw [ih]
      · simp only [hf, if_false, Bool.false_eq_true]
        rw [ih]
    · have hflag := fixedStateFlag_false_of_no_backup a (Bool.not_eq_true _ ▸ eq_false_of_ne_true hb)
      simp only [hb, hflag, if_false, Bool.false_eq_true]
      rw [ih]

theorem entries_sum_of_fixed (l : List Row) :
    entries_with_fixed_sum (fixed_entries l) = entries_with_fixed_sum l := by
  induction l with
  | nil => rfl
  | cons a t ih =>
    simp only [fixed_entries, entries_with_fixed_sum, List.filter_cons] at ih ⊢
    by_cases hb : a.has_backup
    · simp only [hb, if_true, List.filter_cons]
      by_cases hf : fixedSumFlag a
      · simp only [hf, if_true]
        rw [ih]
      · simp only [hf, if_false, Bool.false_eq_true]
        rw [ih]
    · have hflag := fixedSumFlag_false_of_no_backup a (Bool.not_eq_true _ ▸ eq_false_of_ne_true hb)
      simp only [hb, hflag, if_false, Bool.false_eq_true]
      rw [ih]

/-- C8: on the fixed-entry list the driver hands to generate_sql, the
emitted WHERE id IN list is the ids of the rows whose snapshot state
differs from their current state (one WHEN line each, in chain order)
followed by the ids of the rows whose snapshot sum differs from their
current sum (one WHEN line each, in chain order); a row in both sets
contributes its id twice. -/
theorem generate_sql_ids_spec (l : List Row) :
    (generate_sql (fixed_entries l)).ids
      = (entries_with_fixed_state l).map Row.id
        ++ (entries_with_fixed_sum l).map Row.id ∧
    (generate_sql (fixed_entries l)).stateWhens
      = (entries_with_fixed_state l).map (fun e => (e.id, e.state)) ∧
    (generate_sql (fixed_entries l)).sumWhens
      = (entries_with_fixed_sum l).map (fun e => (e.id, e.sum)) := by
  have h := generate_sql_fields (fixed_entries l)
  rw [entries_state_of_fixed, entries_sum_of_fixed] at h
  exact ⟨h.2.2, h.1, h.2.1⟩

/-! Parsing: the index reads in parse_fields can never fail, because
with f fields the state index f - 2 is at worst -1, which Python
indexing wraps to the last field. -/

theorem pyGet_isSome_of {α : Type} (xs : List α) (i : Int)
    (hne : xs ≠ []) (h1 : -1 ≤ i) (h2 : i < xs.length) : (pyGet xs i).isSome := by
  have hlen : 0 < xs.length := List.length_pos.mpr hne
  unfold pyGet
  by_cases h0 : 0 ≤ i
  · rw [if_pos h0]
    have hlt : i.toNat < xs.length := by omega
    rw [List.get?_eq_get hlt]
    rfl
  · rw [if_neg h0]
    have hge : 0 ≤ i + xs.length := by omega
    rw [if_pos hge]
    have hlt : (i + xs.length).toNat < xs.length := by omega
    rw [List.get?_eq_get hlt]
    rfl

theorem parse_fields_ne_errIndex (values : List (List Char)) (h : values ≠ []) :
    parse_fields values ≠ LineResult.errIndex := by
  have hlen : 0 < values.length := List.length_pos.mpr h
  obtain ⟨v0, hv0⟩ := Option.isSome_iff_exists.mp
    (pyGet_isSome_of values 0 h (by omega) (by exact_mod_cast hlen))
  obtain ⟨vs, hvs⟩ := Option.isSome_iff_exists.mp
    (pyGet_isSome_of values ((values.length : Int) - 1 - 1) h (by omega) (by omega))
  obtain ⟨vu, hvu⟩ := Option.isSome_iff_exists.mp
    (pyGet_isSome_of values ((values.length : Int) - 1) h (by omega) (by omega))
  simp only [parse_fields, hv0, hvs, hvu]
  cases hnum : pyIsNumeric v0 with
  | false => simp
  | true =>
    simp only [Bool.not_true, Bool.false_eq_true, if_false]
    cases hpi : pyInt v0 with
    | none => simp
    | some n =>
      cases hf1 : parseFloat vs with
      | none => simp
      | some x =>
        cases hf2 : parseFloat vu with
        | none => simp
        | some y => simp

theorem parse_fields_pair (a b : List Char) (n : Nat) (x y : ℚ)
    (ha : pyIsNumeric a = true) (hn : pyInt a = some n)
    (hx : parseFloat a = some x) (hy : parseFloat b = some y) :
    parse_fields [a, b] = LineResult.row n x y := by
  have h0 : pyGet [a, b] 0 = some a := rfl
  have hs : pyGet [a, b] (([a, b].length : Int) - 1 - 1) = some a := rfl
  have hu : pyGet [a, b] (([a, b].length : Int) - 1) = some b := rfl
  simp only [parse_fields, h0, hs, hu, ha, hn, hx, hy, Bool.not_true, Bool.false_eq_true,
    if_false]

/-- C4 counterexample: the digit-led data line "2,105" has only two
fields, yet parsing does not fail: it produces the row
(id, state, sum) = (2, 2, 105) - the state is read from field index 0,
the id field - and a run over just that line succeeds. -/
theorem two_field_line_counterexample :
    read_line ',' "2,105" = LineResult.row 2 2 105 ∧
    (pySplit ',' "2,105".toList).length = 2 ∧
    pyIsNumeric ['2'] = true ∧
    (read_statistics ',' ["2,105"]).map (List.map fun r => (r.id, r.state, r.sum))
      = some [(2, 2, 105)] := by
  exact ⟨by decide, by decide, by decide, by decide⟩

/-- C4 amended: a digit-led line with fewer than 3 fields never raises
an index error - Python's negative indexing wraps the state index to an
existing field - and a two-field digit-led line parses into a row whose
state comes from the first (id) field and whose sum comes from the
second, failing only if those fields are not numeric literals. -/
theorem short_line_parse_amended (values : List (List Char)) (a b : List Char)
    (n : Nat) (x y : ℚ) (hne : values ≠ [])
    (ha : pyIsNumeric a = true) (hn : pyInt a = some n)
    (hx : parseFloat a = some x) (hy : parseFloat b = some y) :
    parse_fields values ≠ LineResult.errIndex ∧
    parse_fields [a, b] = LineResult.row n x y :=
  ⟨parse_fields_ne_errIndex values hne, parse_fields_pair a b n x y ha hn hx hy⟩

/-- Witness for C4's amended statement: a one-field line raises no index
error, and the two-field line with fields "2" and "105" parses to the
row (2, 2, 105). -/
theorem short_line_parse_amended_witness :
    parse_fields [['7']] ≠ LineResult.errIndex ∧
    parse_fields [['2'], ['1', '0', '5']] = LineResult.row 2 2 105 :=
  short_line_parse_amended [['7']] ['2'] ['1', '0', '5'] 2 2 105
    (by decide) (by decide) (by decide) (by decide) (by decide)

/-- C5: a line whose first field is not composed entirely of decimal
digits is skipped - read_line signals skip, never an error, and the
sweep over the remaining lines continues with the predecessor chain
untouched; blank lines are an instance, their first field being the
empty string. -/
theorem nonnumeric_first_field_skipped (sep : Char) (line : String) (k : Nat)
    (rest : List String) (v : List Char)
    (hv : pyGet (pySplit sep line.toList) 0 = some v)
    (h : pyIsNumeric v = false) :
    read_line sep line = LineResult.skip ∧
    readGo sep k (line :: rest) = readGo sep (k + 1) rest := by
  have hskip : read_line sep line = LineResult.skip := by
    simp only [read_line, parse_fields, hv, h, Bool.not_false, if_true]
  refine ⟨hskip, ?_⟩
  simp only [readGo, hskip]

/-- Witness for C5 at the blank line: it is skipped and contributes no
row, the sweep continuing at the next line. -/
theorem nonnumeric_first_field_skipped_witness :
    read_line ',' "" = LineResult.skip ∧
    readGo ',' 1 ["", "1,2,3"] = readGo ',' 2 ["1,2,3"] :=
  nonnumeric_first_field_skipped ',' "" 1 ["1,2,3"] [] rfl rfl

end FixStatistics
